import Mathlib

/-!
Verification of the two dataset adapters of this repository:

* `kedro/extras/datasets/hdf5/h5py_dataset.py` (`H5pyDataSet`) — loads and
  saves HDF5 files through an fsspec filesystem, converting between a raw
  byte buffer and an in-memory `h5py.File` handle via a memory-backed
  (non-disk) backing store, guarded by a process-wide lock.
* `kedro/extras/datasets/plotly/plotly_dataset.py` (`PlotlyDataSet`) — builds
  a plotly figure from a pandas DataFrame via a plotly-express constructor
  selected by `plotly_args["type"]`, then delegates persistence to the
  plotly `JSONDataSet`.

The hierarchical container (HDF5 file) is embedded as a finite tree of named
groups and datasets, with soft links, external links and object references.
The third-party container library (h5py/HDF5), which the source treats as an
opaque codec, is embedded as an executable serializer/parser pair over
`List Nat` byte buffers plus a link-expanding copy operation, mirroring the
calls made in `__h5py_from_binary` / `__h5py_to_binary`.  Filesystem access,
path/version resolution and the structured-text codec are external
collaborators of the source and are modelled as explicit oracles.
Load/save are embedded as functions that also emit the ordered trace of
externally visible events (filesystem open/read/write, lock acquire/release,
library calls), so that the lock-discipline claims become statements about
those traces.
-/

/-! ## The hierarchical container data model -/

/-- One entry of a hierarchical container: a multidimensional dataset
(flattened to its raw cell contents), a named group of sub-entries, a soft
link, an external link (into another container file), or an object
reference. -/
inductive H5Entry where
  | dataset (data : List Nat)
  | group (children : List (String × H5Entry))
  | softLink (path : List String)
  | externalLink (file : String) (path : List String)
  | objectRef (path : List String)
deriving Repr

/-- A container file: its top-level named entries, in order. -/
abbrev H5File := List (String × H5Entry)

/-- Association-list lookup by string key (first match wins), the embedding
of Python dict/group lookup. -/
def alookup {α : Type} : List (String × α) → String → Option α
  | [], _ => none
  | (m, v) :: rest, n => if m = n then some v else alookup rest n

/-- Resolve a path inside an entry (descending through groups only). -/
def lookupInEntry : H5Entry → List String → Option H5Entry
  | e, [] => some e
  | H5Entry.group cs, n :: rest =>
      match alookup cs n with
      | some e => lookupInEntry e rest
      | none => none
  | _, _ :: _ => none

/-- Resolve an absolute path in a container file. -/
def lookupPath (f : H5File) (p : List String) : Option H5Entry :=
  lookupInEntry (H5Entry.group f) p

/-! ## Byte-level serialization of a container (the opaque HDF5 format)

The HDF5 byte format itself is a black box to the source; it is embedded
here as a concrete length-prefixed tag encoding with the real HDF5
superblock signature `\x89HDF` as magic, plus a total-length field, so that
well-formedness of a buffer is a meaningful executable notion and truncated
buffers are detectably malformed. -/

/-- Length-prefixed encoding of a string as character codes. -/
def encString (s : String) : List Nat :=
  s.data.length :: s.data.map Char.toNat

/-- Count-prefixed encoding of a path. -/
def encPath (p : List String) : List Nat :=
  p.length :: (p.map encString).flatten

mutual

/-- Tagged encoding of one entry. -/
def encEntry : H5Entry → List Nat
  | H5Entry.dataset d => 0 :: d.length :: d
  | H5Entry.group cs => 1 :: cs.length :: encChildren cs
  | H5Entry.softLink p => 2 :: encPath p
  | H5Entry.externalLink fn p => 3 :: (encString fn ++ encPath p)
  | H5Entry.objectRef p => 4 :: encPath p

/-- Encoding of a list of named entries, one after the other. -/
def encChildren : List (String × H5Entry) → List Nat
  | [] => []
  | (n, e) :: rest => encString n ++ encEntry e ++ encChildren rest

end

/-- The magic signature of the container format (`\x89HDF`). -/
def magicHeader : List Nat := [137, 72, 68, 70]

/-- Serialize a container file to a byte buffer: magic, total payload
length, entry count, entries. -/
def serialize (f : H5File) : List Nat :=
  magicHeader ++ ((encChildren f).length + 1) :: f.length :: encChildren f

/-- Parse a length-prefixed string, validating every character code. -/
def parseString : List Nat → Option (String × List Nat)
  | [] => none
  | len :: rest =>
    if decide (len ≤ rest.length) && (rest.take len).all (fun n => decide n.isValidChar) then
      some (String.mk ((rest.take len).map Char.ofNat), rest.drop len)
    else none

/-- Parse a fixed number of strings. -/
def parseStrings : Nat → List Nat → Option (List String × List Nat)
  | 0, input => some ([], input)
  | cnt + 1, input =>
    match parseString input with
    | none => none
    | some (s, r) =>
      match parseStrings cnt r with
      | none => none
      | some (ss, r2) => some (s :: ss, r2)

/-- Parse a count-prefixed path. -/
def parsePath : List Nat → Option (List String × List Nat)
  | [] => none
  | cnt :: rest => parseStrings cnt rest

/-- Parse a fixed number of named entries with a given entry parser. -/
def parseCount (pe : List Nat → Option (H5Entry × List Nat)) :
    Nat → List Nat → Option (List (String × H5Entry) × List Nat)
  | 0, input => some ([], input)
  | cnt + 1, input =>
    match parseString input with
    | none => none
    | some (n, r1) =>
      match pe r1 with
      | none => none
      | some (e, r2) =>
        match parseCount pe cnt r2 with
        | none => none
        | some (cs, r3) => some ((n, e) :: cs, r3)

/-- Fuelled parser for one tagged entry. -/
def parseEntry : Nat → List Nat → Option (H5Entry × List Nat)
  | 0, _ => none
  | fuel + 1, input =>
    match input with
    | 0 :: len :: rest =>
        if len ≤ rest.length then
          some (H5Entry.dataset (rest.take len), rest.drop len)
        else none
    | 1 :: cnt :: rest =>
        match parseCount (parseEntry fuel) cnt rest with
        | none => none
        | some (cs, r) => some (H5Entry.group cs, r)
    | 2 :: rest =>
        match parsePath rest with
        | none => none
        | some (p, r) => some (H5Entry.softLink p, r)
    | 3 :: rest =>
        match parseString rest with
        | none => none
        | some (fn, r1) =>
          match parsePath r1 with
          | none => none
          | some (p, r2) => some (H5Entry.externalLink fn p, r2)
    | 4 :: rest =>
        match parsePath rest with
        | none => none
        | some (p, r) => some (H5Entry.objectRef p, r)
    | _ => none

/-- Deserialize a byte buffer into a container file: checks the magic
signature, the declared total length, and that the payload parses with no
bytes left over.  Returns `none` on any malformed buffer. -/
def deserialize : List Nat → Option H5File
  | 137 :: 72 :: 68 :: 70 :: plen :: rest =>
    if plen = rest.length then
      match rest with
      | cnt :: rest2 =>
        match parseCount (parseEntry (rest2.length + 1)) cnt rest2 with
        | some (cs, []) => if cnt = cs.length then some cs else none
        | _ => none
      | [] => none
    else none
  | _ => none

/-! ## Link-expanding copy (the `h5f.copy(..., expand_soft=True,
expand_external=True, expand_refs=True)` call of `__h5py_to_binary`) -/

/-- Option-valued map over the entry component of each named pair. -/
def optMapSnd (f : H5Entry → Option H5Entry) :
    List (String × H5Entry) → Option (List (String × H5Entry))
  | [] => some []
  | (n, e) :: rest =>
      match f e with
      | none => none
      | some v =>
        match optMapSnd f rest with
        | none => none
        | some vs => some ((n, v) :: vs)

/-- Fuelled recursive copy of one entry, expanding soft links and object
references against the root file being copied from, and external links
against the surrounding filesystem `env` of container files.  Runs out of
fuel (and thus fails) on cyclic link chains; fails on dangling links, the
entries the library cannot copy. -/
def expandEntry (env : List (String × H5File)) :
    Nat → H5File → H5Entry → Option H5Entry
  | 0, _, _ => none
  | _ + 1, _, H5Entry.dataset d => some (H5Entry.dataset d)
  | fuel + 1, root, H5Entry.group cs =>
      match optMapSnd (expandEntry env fuel root) cs with
      | some vs => some (H5Entry.group vs)
      | none => none
  | fuel + 1, root, H5Entry.softLink p =>
      match lookupPath root p with
      | some t => expandEntry env fuel root t
      | none => none
  | fuel + 1, root, H5Entry.objectRef p =>
      match lookupPath root p with
      | some t => expandEntry env fuel root t
      | none => none
  | fuel + 1, _, H5Entry.externalLink fn p =>
      match alookup env fn with
      | some ef =>
        match lookupPath ef p with
        | some t => expandEntry env fuel ef t
        | none => none
      | none => none

mutual

/-- An entry is self-contained when it holds no link or reference of any
kind, at any depth. -/
def linkFree : H5Entry → Bool
  | H5Entry.dataset _ => true
  | H5Entry.group cs => linkFreeChildren cs
  | H5Entry.softLink _ => false
  | H5Entry.externalLink _ _ => false
  | H5Entry.objectRef _ => false

/-- All entries of a named list are self-contained. -/
def linkFreeChildren : List (String × H5Entry) → Bool
  | [] => true
  | (_, e) :: rest => linkFree e && linkFreeChildren rest

end

/-- Fuel budget for one copy call: enough for any acyclic link structure
reachable from the handle and the surrounding filesystem. -/
def copyFuel (env : List (String × H5File)) (f : H5File) : Nat :=
  (encChildren f).length + (env.map (fun p => (encChildren p.2).length)).sum + 1

/-- The raw content of the top-level entry named `n` of a handle: the
fully link-expanded value of that entry, resolved against the handle's own
tree and the surrounding filesystem.  Fuel is existential: any sufficient
budget gives the same answer. -/
def hasRawContent (env : List (String × H5File)) (f : H5File) (n : String)
    (v : H5Entry) : Prop :=
  ∃ fuel e, alookup f n = some e ∧ expandEntry env fuel f e = some v

/-! ## Errors (spec section 7 taxonomy) -/

/-- The error taxonomy of the adapters. -/
inductive DsError where
  | decodeError
  | encodeError
  | pathResolution
  | fsFailure
  | unsupportedChartKind
deriving Repr, DecidableEq

/-! ## The `H5pyDataSet` adapter -/

/-- `H5pyDataSet.__h5py_from_binary`: open the container from an in-memory
byte image (core driver, no backing store, read-only).  `load_args` are
pass-through tuning options for the underlying open call and do not change
the decoded tree.  The underlying library rejects any malformed image. -/
def H5pyDataSet.h5py_from_binary (binary : List Nat)
    (load_args : List (String × String)) : Except DsError H5File :=
  match deserialize binary with
  | some f => Except.ok f
  | none => Except.error DsError.decodeError

/-- `H5pyDataSet.__h5py_to_binary`: create a fresh memory-backed container,
copy every top-level named entry of the handle into it with
`expand_soft=True, expand_external=True, expand_refs=True`, and return the
resulting byte buffer.  `save_args` are pass-through tuning options.
Fails when some entry cannot be copied. -/
def H5pyDataSet.h5py_to_binary (env : List (String × H5File)) (h5f : H5File)
    (save_args : List (String × String)) : Except DsError (List Nat) :=
  match optMapSnd (expandEntry env (copyFuel env h5f) h5f) h5f with
  | some out => Except.ok (serialize out)
  | none => Except.error DsError.encodeError

/-- Keyword arguments for the filesystem: nested `open_args_load` /
`open_args_save` dictionaries popped off in `__init__`, and the remaining
filesystem-constructor arguments. -/
structure FsArgs where
  openArgsLoad : List (String × String)
  openArgsSave : List (String × String)
  clientArgs : List (String × String)
deriving Repr

/-- The constructor configuration of either adapter (spec section 6). -/
structure DsConfig where
  filepath : String
  loadArgs : Option (List (String × String))
  saveArgs : Option (List (String × String))
  version : Option (Option String × Option String)
  credentials : Option (List (String × String))
  fsArgs : Option FsArgs
deriving Repr

/-- Modelled from the spec: `get_protocol_and_path` of `kedro.io.core` (not
under `src/`), the path/protocol resolution step — splits off a
`protocol://` prefix, defaulting to the `file` protocol. -/
def getProtocolAndPath (filepath : String) : String × String :=
  match filepath.splitOn "://" with
  | [p] => ("file", p)
  | proto :: rest => (proto, String.intercalate "://" rest)
  | [] => ("file", "")

/-- Python `dict.setdefault`: keep an existing value, otherwise add the
default. -/
def setDefault (args : List (String × String)) (k v : String) :
    List (String × String) :=
  match alookup args k with
  | some _ => args
  | none => args ++ [(k, v)]

/-- The state an `H5pyDataSet` instance holds after `__init__`. -/
structure H5State where
  filepath : String
  protocol : String
  loadArgs : List (String × String)
  saveArgs : List (String × String)
  version : Option (Option String × Option String)
  fsSpec : List (String × String)
  fsOpenArgsLoad : List (String × String)
  fsOpenArgsSave : List (String × String)
deriving Repr

/-- `H5pyDataSet.__init__`: pop the nested open-args off `fs_args`, resolve
protocol and path, build the filesystem from credentials plus the remaining
`fs_args` (with `auto_mkdir` defaulted for the `file` protocol), merge the
default (empty) load/save args with the caller's, and default the save open
mode to `wb`. -/
def H5pyDataSet.init (cfg : DsConfig) : H5State :=
  let fsA := cfg.fsArgs.getD ⟨[], [], []⟩
  let creds := cfg.credentials.getD []
  let pp := getProtocolAndPath cfg.filepath
  let clientArgs :=
    if pp.1 = "file" then setDefault fsA.clientArgs "auto_mkdir" "True"
    else fsA.clientArgs
  { filepath := pp.2
    protocol := pp.1
    loadArgs := cfg.loadArgs.getD []
    saveArgs := cfg.saveArgs.getD []
    version := cfg.version
    fsSpec := creds ++ clientArgs
    fsOpenArgsLoad := fsA.openArgsLoad
    fsOpenArgsSave := setDefault fsA.openArgsSave "mode" "wb" }

/-- What `H5pyDataSet._describe` returns: exactly the five fields of the
dict built at source lines 165-172. -/
structure H5Describe where
  filepath : String
  protocol : String
  loadArgs : List (String × String)
  saveArgs : List (String × String)
  version : Option (Option String × Option String)
deriving Repr, DecidableEq

/-- `H5pyDataSet._describe`. -/
def H5pyDataSet.describe (st : H5State) : H5Describe :=
  { filepath := st.filepath
    protocol := st.protocol
    loadArgs := st.loadArgs
    saveArgs := st.saveArgs
    version := st.version }

/-- Modelled from the spec: the path/version resolver (external
collaborator, spec section 6) — yields the concrete load and save path
strings (already rendered by `get_filepath_str`), or a path-resolution
error, in particular when no prior version exists for a load. -/
structure Resolver where
  loadPath : Except DsError String
  savePath : Except DsError String

/-- Modelled from the spec: the external filesystem abstraction (spec
section 6) — `open`+read of a whole file, and `exists`. -/
structure FileSystem where
  readFile : String → Except DsError (List Nat)
  fileExists : String → Except DsError Bool

/-- Externally visible events of one adapter operation, in program order. -/
inductive Event where
  | fsOpen (path : String) (args : List (String × String))
  | fsRead (path : String)
  | fsWrite (path : String)
  | lockAcquire (lock : Nat)
  | lockRelease (lock : Nat)
  | libOpenImage
  | libCreateAndCopy
  | cacheInvalidate (path : String)
deriving Repr, DecidableEq

/-- The single process-wide lock: the `_lock` class attribute of
`H5pyDataSet`, shared by all instances and hence by load and save. -/
def h5pyLockId : Nat := 0

/-- `H5pyDataSet._load`: resolve the load path, open and fully read the
byte stream from the filesystem, then — holding the class lock — open the
container from the in-memory image.  Returns the result together with the
ordered event trace. -/
def H5pyDataSet.load (fs : FileSystem) (res : Resolver) (st : H5State) :
    Except DsError H5File × List Event :=
  match res.loadPath with
  | Except.error e => (Except.error e, [])
  | Except.ok p =>
    match fs.readFile p with
    | Except.error e => (Except.error e, [Event.fsOpen p st.fsOpenArgsLoad])
    | Except.ok binary_data =>
      (H5pyDataSet.h5py_from_binary binary_data st.loadArgs,
       [Event.fsOpen p st.fsOpenArgsLoad, Event.fsRead p,
        Event.lockAcquire h5pyLockId, Event.libOpenImage,
        Event.lockRelease h5pyLockId])

/-- `H5pyDataSet._save`: resolve the save path, then — holding the class
lock — encode the handle to a byte buffer, then open the filesystem stream
with `open_args_save` and write the buffer, then invalidate the filesystem
cache.  Returns the written path and bytes together with the event
trace. -/
def H5pyDataSet.save (env : List (String × H5File)) (res : Resolver)
    (st : H5State) (data : H5File) :
    Except DsError (String × List Nat) × List Event :=
  match res.savePath with
  | Except.error e => (Except.error e, [])
  | Except.ok p =>
    match H5pyDataSet.h5py_to_binary env data st.saveArgs with
    | Except.error e =>
        (Except.error e,
         [Event.lockAcquire h5pyLockId, Event.lockRelease h5pyLockId])
    | Except.ok binary_data =>
        (Except.ok (p, binary_data),
         [Event.lockAcquire h5pyLockId, Event.libCreateAndCopy,
          Event.lockRelease h5pyLockId,
          Event.fsOpen p st.fsOpenArgsSave, Event.fsWrite p,
          Event.cacheInvalidate st.filepath])

/-- `H5pyDataSet._exists`: try to resolve the load path, returning `False`
on a path-resolution (`DataSetError`) failure; otherwise ask the
filesystem, whose own failures propagate. -/
def H5pyDataSet.existsImpl (fs : FileSystem) (res : Resolver) :
    Except DsError Bool :=
  match res.loadPath with
  | Except.error _ => Except.ok false
  | Except.ok p => fs.fileExists p

/-! ## The `PlotlyDataSet` adapter -/

/-- A tabular input: named columns of raw values. -/
structure DataFrame where
  cols : List (String × List Nat)
deriving Repr

/-- The `fig` keyword arguments handed to the plotly-express constructor:
which columns to plot, plus verbatim pass-through options. -/
structure FigParams where
  x : Option String
  y : Option String
  passthrough : List (String × String)
deriving Repr

/-- One trace of a figure. -/
structure Trace where
  traceType : String
  xs : List Nat
  ys : List Nat
deriving Repr, DecidableEq

/-- An in-memory declarative figure: traces, the applied template, and the
layout overrides. -/
structure Figure where
  traces : List Trace
  template : String
  layout : List (String × String)
deriving Repr, DecidableEq

/-- The `plotly_args` configuration dict: `type`, `fig`, `theme`,
`layout`. -/
structure PlotlyArgs where
  type : Option String
  fig : FigParams
  theme : Option String
  layout : List (String × String)
deriving Repr

/-- Column selection of a plotly-express constructor. -/
def colOf (data : DataFrame) (c : Option String) : List Nat :=
  match c with
  | none => []
  | some n => (alookup data.cols n).getD []

/-- A plotly-express constructor of the given chart kind: one trace of that
kind over the selected columns, the library default template, empty layout
overrides. -/
def pxMake (kind : String) (data : DataFrame) (ps : FigParams) : Figure :=
  { traces := [{ traceType := kind, xs := colOf data ps.x, ys := colOf data ps.y }]
    template := "plotly"
    layout := [] }

/-- The fixed table of supported plotly-express constructors: the
attributes `getattr(px, plot_type)` can successfully look up. -/
def pxExpress : List (String × (DataFrame → FigParams → Figure)) :=
  [("bar", pxMake "bar"), ("line", pxMake "line"),
   ("scatter", pxMake "scatter"), ("area", pxMake "area"),
   ("pie", pxMake "pie"), ("histogram", pxMake "histogram")]

/-- Whether `plotly_args["type"]` names a supported plotly-express
constructor. -/
def kindSupported (pa : PlotlyArgs) : Bool :=
  match pa.type with
  | some t => (alookup pxExpress t).isSome
  | none => false

/-- Write one key into a layout mapping, overwriting an existing value. -/
def setKey (m : List (String × String)) (k v : String) :
    List (String × String) :=
  match alookup m k with
  | some _ => m.map (fun p => if p.1 = k then (k, v) else p)
  | none => m ++ [(k, v)]

/-- `fig.update_layout(kvs)`: merge the given keys into the layout, later
keys winning. -/
def updateKeys (m : List (String × String)) (kvs : List (String × String)) :
    List (String × String) :=
  kvs.foldl (fun acc p => setKey acc p.1 p.2) m

/-- Dict-semantics lookup of an association list built like a Python dict:
a later duplicate key overwrites an earlier one. -/
def dictLookup (m : List (String × String)) (k : String) : Option String :=
  alookup m.reverse k

/-- `PlotlyDataSet._plot_dataframe`: look up the plotly-express constructor
named by `plotly_args["type"]`, build the figure from the data and the
`fig` params, apply the theme (default `"plotly"`) as the figure template,
then apply the `layout` mapping as overrides. -/
def PlotlyDataSet.plot_dataframe (pa : PlotlyArgs) (data : DataFrame) :
    Except DsError Figure :=
  match pa.type with
  | none => Except.error DsError.unsupportedChartKind
  | some t =>
    match alookup pxExpress t with
    | none => Except.error DsError.unsupportedChartKind
    | some ctor =>
      let fig0 := ctor data pa.fig
      let fig1 := { fig0 with template := pa.theme.getD "plotly" }
      let fig2 := { fig1 with layout := updateKeys fig1.layout pa.layout }
      Except.ok fig2

/-- The value of a layout key as rendered: an explicit layout override
wins; otherwise the theme template's default (an arbitrary assignment of
defaults to template names) applies. -/
def effectiveLayoutValue (tplDefaults : String → List (String × String))
    (fig : Figure) (k : String) : Option String :=
  match alookup fig.layout k with
  | some v => some v
  | none => alookup (tplDefaults fig.template) k

/-- Modelled from the spec: the structured-text codec (`plotly.JSONDataSet`,
whose source is not under `src/`) serializes any structured value to
text. -/
def figureToText (fig : Figure) : String :=
  toString (repr fig)

/-- Modelled from the spec: `JSONDataSet._save`, the structured-text
codec's unmodified encode-and-write pipeline — resolve the save path,
serialize the value to text, write it through the filesystem
abstraction. -/
def JSONDataSet.save (res : Resolver) (fig : Figure) :
    Except DsError (String × String) :=
  match res.savePath with
  | Except.error e => Except.error e
  | Except.ok p => Except.ok (p, figureToText fig)

/-- `PlotlyDataSet._save`: build the figure from the DataFrame, then hand
it to the parent `JSONDataSet` save. -/
def PlotlyDataSet.save (res : Resolver) (pa : PlotlyArgs) (data : DataFrame) :
    Except DsError (String × String) :=
  match PlotlyDataSet.plot_dataframe pa data with
  | Except.error e => Except.error e
  | Except.ok fig => JSONDataSet.save res fig

/-- The spec's description of the chart artifact save, stated on its own
for the refinement claim: construct a figure, then persist it exactly as
the generic structured-text codec persists any structured value. -/
def chartSaveSpec (res : Resolver) (pa : PlotlyArgs) (data : DataFrame) :
    Except DsError (String × String) :=
  (PlotlyDataSet.plot_dataframe pa data).bind (JSONDataSet.save res)

/-- Modelled from the spec: `JSONDataSet.__init__` (not under `src/`)
follows the same constructor contract as the hdf5 adapter, except that the
default save open mode is `w` (text). -/
def JSONDataSet.init (cfg : DsConfig) : H5State :=
  let fsA := cfg.fsArgs.getD ⟨[], [], []⟩
  let creds := cfg.credentials.getD []
  let pp := getProtocolAndPath cfg.filepath
  let clientArgs :=
    if pp.1 = "file" then setDefault fsA.clientArgs "auto_mkdir" "True"
    else fsA.clientArgs
  { filepath := pp.2
    protocol := pp.1
    loadArgs := cfg.loadArgs.getD []
    saveArgs := cfg.saveArgs.getD []
    version := cfg.version
    fsSpec := creds ++ clientArgs
    fsOpenArgsLoad := fsA.openArgsLoad
    fsOpenArgsSave := setDefault fsA.openArgsSave "mode" "w" }

/-- What `PlotlyDataSet._describe` returns: the parent description plus
`plotly_args`. -/
structure PlotlyDescribe where
  base : H5Describe
  plotlyArgs : PlotlyArgs
deriving Repr

/-- `PlotlyDataSet._describe` (the parent part modelled from the spec). -/
def PlotlyDataSet.describe (st : H5State) (pa : PlotlyArgs) : PlotlyDescribe :=
  { base := H5pyDataSet.describe st, plotlyArgs := pa }

/-! ## Trace predicates for the lock-discipline claim -/

/-- Byte-stream I/O to or from the external filesystem. -/
def isFsEvent : Event → Bool
  | Event.fsOpen _ _ => true
  | Event.fsRead _ => true
  | Event.fsWrite _ => true
  | _ => false

/-- Calls into the non-thread-safe container library. -/
def isLibEvent : Event → Bool
  | Event.libOpenImage => true
  | Event.libCreateAndCopy => true
  | _ => false

/-- Lock acquisition or release. -/
def isLockEvent : Event → Bool
  | Event.lockAcquire _ => true
  | Event.lockRelease _ => true
  | _ => false

/-- Scans a trace checking the lock protocol: only the given lock is ever
touched, acquire and release alternate correctly, the trace ends with the
lock free, while the lock is held the only events are library calls, and —
conversely — no library call is ever made while the lock is free.  Together
with the presence of a library event in a trace, this forces an acquire of
exactly `lk` before the call and a release after it. -/
def lockDiscipline (lk : Nat) : Bool → List Event → Bool
  | false, [] => true
  | true, [] => false
  | false, Event.lockAcquire l :: rest => l == lk && lockDiscipline lk true rest
  | false, Event.lockRelease _ :: _ => false
  | false, e :: rest => !(isLibEvent e) && lockDiscipline lk false rest
  | true, Event.lockRelease l :: rest => l == lk && lockDiscipline lk false rest
  | true, e :: rest => isLibEvent e && lockDiscipline lk true rest

/-- Every filesystem event precedes every lock or library event: the
byte-stream read completes before the lock is ever taken. -/
def fsAllBeforeLock : List Event → Bool
  | [] => true
  | e :: rest =>
    if isLockEvent e || isLibEvent e then
      rest.all (fun x => !(isFsEvent x)) && fsAllBeforeLock rest
    else fsAllBeforeLock rest

/-- Every filesystem event follows every lock or library event: the
byte-stream write begins only after the lock has been released. -/
def fsAllAfterLock : List Event → Bool
  | [] => true
  | e :: rest =>
    if isFsEvent e then
      rest.all (fun x => !(isLockEvent x || isLibEvent x)) && fsAllAfterLock rest
    else fsAllAfterLock rest

/-! ## Association-list lemmas -/

theorem alookup_append {α : Type} (a b : List (String × α)) (k : String) :
    alookup (a ++ b) k =
      match alookup a k with
      | some v => some v
      | none => alookup b k := by
  induction a with
  | nil => simp [alookup]
  | cons p rest ih =>
    cases p with
    | mk m v =>
      by_cases h : m = k
      · simp [alookup, h]
      · simp [alookup, h, ih]

theorem alookup_map_overwrite (m : List (String × String)) (k v : String) :
    alookup (m.map (fun p => if p.1 = k then (k, v) else p)) k =
      match alookup m k with
      | some _ => some v
      | none => none := by
  induction m with
  | nil => rfl
  | cons p rest ih =>
    cases p with
    | mk a b =>
      rw [List.map_cons]
      by_cases ha : a = k
      · subst ha
        rw [show (if ((a, b) : String × String).1 = a then (a, v) else (a, b))
              = (a, v) from if_pos rfl]
        simp [alookup]
      · rw [show (if ((a, b) : String × String).1 = k then (k, v) else (a, b))
              = (a, b) from if_neg ha]
        simp [alookup, ha, ih]

theorem alookup_map_keep (m : List (String × String)) (k v k' : String)
    (hne : k' ≠ k) :
    alookup (m.map (fun p => if p.1 = k then (k, v) else p)) k' =
      alookup m k' := by
  induction m with
  | nil => rfl
  | cons p rest ih =>
    cases p with
    | mk a b =>
      rw [List.map_cons]
      by_cases ha : a = k
      · subst ha
        rw [show (if ((a, b) : String × String).1 = a then (a, v) else (a, b))
              = (a, v) from if_pos rfl]
        simp [alookup, Ne.symm hne, ih]
      · rw [show (if ((a, b) : String × String).1 = k then (k, v) else (a, b))
              = (a, b) from if_neg ha]
        by_cases ha' : a = k'
        · simp [alookup, ha']
        · simp [alookup, ha', ih]

theorem alookup_setKey_self (m : List (String × String)) (k v : String) :
    alookup (setKey m k v) k = some v := by
  unfold setKey
  cases h : alookup m k with
  | none => rw [alookup_append]; simp [h, alookup]
  | some w => rw [alookup_map_overwrite, h]

theorem alookup_setKey_other (m : List (String × String)) (k v k' : String)
    (hne : k' ≠ k) : alookup (setKey m k v) k' = alookup m k' := by
  unfold setKey
  cases h : alookup m k with
  | none =>
    rw [alookup_append]
    cases h' : alookup m k' <;> simp [h', alookup, Ne.symm hne]
  | some w => rw [alookup_map_keep m k v k' hne]

theorem alookup_updateKeys (m kvs : List (String × String)) (k : String) :
    alookup (updateKeys m kvs) k =
      match dictLookup kvs k with
      | some v => some v
      | none => alookup m k := by
  induction kvs generalizing m with
  | nil => simp [updateKeys, dictLookup, alookup]
  | cons p kvs ih =>
    have hstep : updateKeys m (p :: kvs) = updateKeys (setKey m p.1 p.2) kvs := by
      simp [updateKeys]
    rw [hstep, ih]
    have hd : dictLookup (p :: kvs) k =
        match dictLookup kvs k with
        | some v => some v
        | none => alookup [p] k := by
      simp only [dictLookup, List.reverse_cons]
      rw [alookup_append]
      cases alookup kvs.reverse k <;> rfl
    rw [hd]
    cases hdk : dictLookup kvs k with
    | some v => simp
    | none =>
      by_cases hpk : p.1 = k
      · simp [alookup, hpk, alookup_setKey_self]
      · simp [alookup, hpk, alookup_setKey_other m p.1 p.2 k (fun h => hpk h.symm)]

theorem alookup_setDefault_absent (m : List (String × String)) (k v : String)
    (h : alookup m k = none) : alookup (setDefault m k v) k = some v := by
  unfold setDefault
  rw [h, alookup_append]
  simp [h, alookup]

theorem alookup_setDefault_present (m : List (String × String)) (k v w : String)
    (h : alookup m k = some w) : alookup (setDefault m k v) k = some w := by
  unfold setDefault
  rw [h]
  exact h

/-! ## Claim C7: `exists()` and error downgrading -/

/-- C7: `exists()` returns false rather than raising when path resolution
fails (in particular when no version has been saved yet); with a resolved
path the filesystem's own answer — including its own failure — is returned
unchanged, so path-resolution failure is the only error downgraded to a
boolean. -/
theorem exists_false_on_path_resolution_failure :
    (∀ (fs : FileSystem) (res : Resolver) (e : DsError),
        res.loadPath = Except.error e →
        H5pyDataSet.existsImpl fs res = Except.ok false) ∧
    (∀ (fs : FileSystem) (res : Resolver) (p : String),
        res.loadPath = Except.ok p →
        H5pyDataSet.existsImpl fs res = fs.fileExists p) := by
  constructor
  · intro fs res e h
    simp [H5pyDataSet.existsImpl, h]
  · intro fs res p h
    simp [H5pyDataSet.existsImpl, h]

/-- Witness: `exists()` on a dataset with no saved version, and on one
whose filesystem itself fails. -/
theorem exists_false_on_path_resolution_failure_witness :
    H5pyDataSet.existsImpl
        ⟨fun _ => Except.error DsError.fsFailure, fun _ => Except.ok true⟩
        ⟨Except.error DsError.pathResolution, Except.ok "out.h5"⟩ =
      Except.ok false ∧
    H5pyDataSet.existsImpl
        ⟨fun _ => Except.error DsError.fsFailure,
         fun _ => Except.error DsError.fsFailure⟩
        ⟨Except.ok "in.h5", Except.ok "out.h5"⟩ =
      Except.error DsError.fsFailure :=
  ⟨exists_false_on_path_resolution_failure.1 _ _ DsError.pathResolution rfl,
   (exists_false_on_path_resolution_failure.2 _ _ "in.h5" rfl).trans rfl⟩

/-! ## Claim C8: plotly save refines the spec composition -/

/-- C8: the chart-artifact save is exactly figure construction followed by
the structured-text codec's unmodified save pipeline applied to the
constructed figure, with no other effect. -/
theorem plotly_save_refines_spec :
    ∀ (res : Resolver) (pa : PlotlyArgs) (data : DataFrame),
      PlotlyDataSet.save res pa data = chartSaveSpec res pa data := by
  intro res pa data
  unfold PlotlyDataSet.save chartSaveSpec
  cases PlotlyDataSet.plot_dataframe pa data <;> rfl

/-! ## Claim C2: unsupported chart kinds -/

/-- C2: when the chart kind does not name a supported constructor, figure
construction fails with the unsupported-chart-kind error and yields no
figure at all. -/
theorem unsupported_chart_kind_fails :
    ∀ (pa : PlotlyArgs) (data : DataFrame), kindSupported pa = false →
      PlotlyDataSet.plot_dataframe pa data =
        Except.error DsError.unsupportedChartKind ∧
      ∀ fig : Figure, PlotlyDataSet.plot_dataframe pa data ≠ Except.ok fig := by
  intro pa data h
  have hmain : PlotlyDataSet.plot_dataframe pa data =
      Except.error DsError.unsupportedChartKind := by
    unfold PlotlyDataSet.plot_dataframe
    cases ht : pa.type with
    | none => rfl
    | some t =>
      unfold kindSupported at h
      simp only [ht] at h
      cases ha : alookup pxExpress t with
      | none => simp only [ha]
      | some ctor => rw [ha] at h; simp at h
  refine ⟨hmain, fun fig hfig => ?_⟩
  rw [hmain] at hfig
  cases hfig

/-- Witness: the chart kind "not_a_chart" is rejected. -/
theorem unsupported_chart_kind_fails_witness :
    PlotlyDataSet.plot_dataframe ⟨some "not_a_chart", ⟨none, none, []⟩, none, []⟩ ⟨[]⟩ =
      Except.error DsError.unsupportedChartKind ∧
    ∀ fig : Figure,
      PlotlyDataSet.plot_dataframe ⟨some "not_a_chart", ⟨none, none, []⟩, none, []⟩ ⟨[]⟩ ≠
        Except.ok fig :=
  unsupported_chart_kind_fails ⟨some "not_a_chart", ⟨none, none, []⟩, none, []⟩ ⟨[]⟩ rfl

/-! ## Claim C5: theme then layout overrides -/

/-- C5: build applies the spec's theme (defaulting to "plotly" when absent)
as the figure's template, then the layout mapping as overrides, so an
explicit layout "title" wins over any theme default title. -/
theorem theme_then_layout_overrides :
    ∀ (tplDefaults : String → List (String × String)) (pa : PlotlyArgs)
      (data : DataFrame) (fig : Figure),
      PlotlyDataSet.plot_dataframe pa data = Except.ok fig →
      fig.template = pa.theme.getD "plotly" ∧
      (∀ v, dictLookup pa.layout "title" = some v →
        effectiveLayoutValue tplDefaults fig "title" = some v) := by
  intro tpl pa data fig hok
  unfold PlotlyDataSet.plot_dataframe at hok
  cases ht : pa.type with
  | none => simp only [ht] at hok; cases hok
  | some t =>
    simp only [ht] at hok
    cases ha : alookup pxExpress t with
    | none => simp only [ha] at hok; cases hok
    | some ctor =>
      simp only [ha, Except.ok.injEq] at hok
      subst hok
      refine ⟨rfl, ?_⟩
      intro v hv
      simp only [effectiveLayoutValue]
      rw [alookup_updateKeys, hv]

/-- Witness: a bar chart with theme defaulted and layout title "T" renders
title "T" even under a theme that supplies a default title. -/
theorem theme_then_layout_overrides_witness :
    ({ traces := [⟨"bar", [], []⟩], template := "plotly",
       layout := [("title", "T")] } : Figure).template =
      (none : Option String).getD "plotly" ∧
    (∀ v, dictLookup [("title", "T")] "title" = some v →
      effectiveLayoutValue (fun _ => [("title", "ThemeDefault")])
        { traces := [⟨"bar", [], []⟩], template := "plotly",
          layout := [("title", "T")] } "title" = some v) :=
  theme_then_layout_overrides (fun _ => [("title", "ThemeDefault")])
    ⟨some "bar", ⟨none, none, []⟩, none, [("title", "T")]⟩ ⟨[]⟩
    { traces := [⟨"bar", [], []⟩], template := "plotly",
      layout := [("title", "T")] } (by rfl)

/-! ## Claim C9: describe never leaks credentials or fsArgs -/

/-- C9: the diagnostic mapping of both adapters is independent of the
credentials and of the filesystem-constructor arguments: two datasets whose
configurations differ only in those fields describe identically. -/
theorem describe_excludes_credentials_and_fs_args :
    ∀ (cfg : DsConfig) (c1 c2 : Option (List (String × String)))
      (f1 f2 : Option FsArgs) (pa : PlotlyArgs),
      H5pyDataSet.describe
          (H5pyDataSet.init { cfg with credentials := c1, fsArgs := f1 }) =
        H5pyDataSet.describe
          (H5pyDataSet.init { cfg with credentials := c2, fsArgs := f2 }) ∧
      PlotlyDataSet.describe
          (JSONDataSet.init { cfg with credentials := c1, fsArgs := f1 }) pa =
        PlotlyDataSet.describe
          (JSONDataSet.init { cfg with credentials := c2, fsArgs := f2 }) pa := by
  intro cfg c1 c2 f1 f2 pa
  exact ⟨rfl, rfl⟩

/-! ## Claim C10: save open mode defaults to "wb" -/

/-- C10: when `open_args_save` carries no "mode" key the hdf5 adapter saves
through mode "wb"; a caller-supplied mode is kept unchanged; and the save
path's filesystem open uses exactly the instance's `open_args_save`. -/
theorem save_open_mode_default_wb :
    ∀ (cfg : DsConfig),
      (alookup (cfg.fsArgs.getD ⟨[], [], []⟩).openArgsSave "mode" = none →
        alookup (H5pyDataSet.init cfg).fsOpenArgsSave "mode" = some "wb") ∧
      (∀ m, alookup (cfg.fsArgs.getD ⟨[], [], []⟩).openArgsSave "mode" = some m →
        alookup (H5pyDataSet.init cfg).fsOpenArgsSave "mode" = some m) ∧
      (∀ (env : List (String × H5File)) (res : Resolver) (data : H5File)
         (p : String) (out : List Nat),
        (H5pyDataSet.save env res (H5pyDataSet.init cfg) data).1 =
          Except.ok (p, out) →
        Event.fsOpen p (H5pyDataSet.init cfg).fsOpenArgsSave ∈
          (H5pyDataSet.save env res (H5pyDataSet.init cfg) data).2) := by
  intro cfg
  refine ⟨?_, ?_, ?_⟩
  · intro h
    exact alookup_setDefault_absent _ _ _ h
  · intro m h
    exact alookup_setDefault_present _ _ _ _ h
  · intro env res data p out h
    cases hs : res.savePath with
    | error e =>
      simp only [H5pyDataSet.save, hs] at h
      cases h
    | ok q =>
      cases hb : H5pyDataSet.h5py_to_binary env data
          (H5pyDataSet.init cfg).saveArgs with
      | error e =>
        simp only [H5pyDataSet.save, hs, hb] at h
        cases h
      | ok bytes =>
        simp only [H5pyDataSet.save, hs, hb, Except.ok.injEq, Prod.mk.injEq] at h
        obtain ⟨hq, hout⟩ := h
        subst hq
        simp only [H5pyDataSet.save, hs, hb]
        simp

/-- Witness: defaulted mode, caller-kept mode, and the open event of a
concrete successful save. -/
theorem save_open_mode_default_wb_witness :
    alookup (H5pyDataSet.init ⟨"test.h5", none, none, none, none, none⟩).fsOpenArgsSave
        "mode" = some "wb" ∧
    alookup (H5pyDataSet.init
        ⟨"test.h5", none, none, none, none,
         some ⟨[], [("mode", "rb+")], []⟩⟩).fsOpenArgsSave "mode" = some "rb+" ∧
    Event.fsOpen "v1/test.h5"
        (H5pyDataSet.init ⟨"test.h5", none, none, none, none, none⟩).fsOpenArgsSave ∈
      (H5pyDataSet.save [] ⟨Except.ok "test.h5", Except.ok "v1/test.h5"⟩
        (H5pyDataSet.init ⟨"test.h5", none, none, none, none, none⟩) []).2 :=
  ⟨(save_open_mode_default_wb ⟨"test.h5", none, none, none, none, none⟩).1 rfl,
   (save_open_mode_default_wb
      ⟨"test.h5", none, none, none, none, some ⟨[], [("mode", "rb+")], []⟩⟩).2.1
      "rb+" rfl,
   (save_open_mode_default_wb ⟨"test.h5", none, none, none, none, none⟩).2.2
      [] ⟨Except.ok "test.h5", Except.ok "v1/test.h5"⟩ [] "v1/test.h5"
      (serialize []) rfl⟩

/-! ## Claim C3: lock discipline of load and save -/

/-- C3: load and save serialize the library call through the one
process-wide lock and never hold it during filesystem I/O.  On every
execution path the trace passes `lockDiscipline` for the shared
`h5pyLockId` — so only that lock is ever touched, it is held exactly while
library calls run, and no library call happens with it free — all
filesystem events of a load precede any lock activity and all filesystem
events of a save follow it.  Moreover the paths that reach the library do
acquire the lock: a load whose filesystem read succeeds produces exactly
the trace read-then-acquire-open-release, a save with a resolved path
acquires and releases the lock even when encoding fails, and a save whose
encoding succeeds produces exactly acquire-copy-release followed by the
filesystem write. -/
theorem lock_discipline_load_save :
    ∀ (fs : FileSystem) (res : Resolver) (st : H5State)
      (env : List (String × H5File)) (data : H5File),
      lockDiscipline h5pyLockId false (H5pyDataSet.load fs res st).2 = true ∧
      fsAllBeforeLock (H5pyDataSet.load fs res st).2 = true ∧
      lockDiscipline h5pyLockId false (H5pyDataSet.save env res st data).2 = true ∧
      fsAllAfterLock (H5pyDataSet.save env res st data).2 = true ∧
      (∀ p binary, res.loadPath = Except.ok p →
        fs.readFile p = Except.ok binary →
        (H5pyDataSet.load fs res st).2 =
          [Event.fsOpen p st.fsOpenArgsLoad, Event.fsRead p,
           Event.lockAcquire h5pyLockId, Event.libOpenImage,
           Event.lockRelease h5pyLockId]) ∧
      (∀ p, res.savePath = Except.ok p →
        Event.lockAcquire h5pyLockId ∈ (H5pyDataSet.save env res st data).2 ∧
        Event.lockRelease h5pyLockId ∈ (H5pyDataSet.save env res st data).2) ∧
      (∀ p binary, res.savePath = Except.ok p →
        H5pyDataSet.h5py_to_binary env data st.saveArgs = Except.ok binary →
        (H5pyDataSet.save env res st data).2 =
          [Event.lockAcquire h5pyLockId, Event.libCreateAndCopy,
           Event.lockRelease h5pyLockId, Event.fsOpen p st.fsOpenArgsSave,
           Event.fsWrite p, Event.cacheInvalidate st.filepath]) := by
  intro fs res st env data
  have hload : lockDiscipline h5pyLockId false (H5pyDataSet.load fs res st).2 = true ∧
      fsAllBeforeLock (H5pyDataSet.load fs res st).2 = true := by
    cases hl : res.loadPath with
    | error e =>
      simp only [H5pyDataSet.load, hl]
      exact ⟨rfl, rfl⟩
    | ok p =>
      cases hr : fs.readFile p with
      | error e =>
        simp only [H5pyDataSet.load, hl, hr]
        exact ⟨rfl, rfl⟩
      | ok bytes =>
        simp only [H5pyDataSet.load, hl, hr]
        exact ⟨rfl, rfl⟩
  have hsave : lockDiscipline h5pyLockId false (H5pyDataSet.save env res st data).2 = true ∧
      fsAllAfterLock (H5pyDataSet.save env res st data).2 = true := by
    cases hs : res.savePath with
    | error e =>
      simp only [H5pyDataSet.save, hs]
      exact ⟨rfl, rfl⟩
    | ok p =>
      cases hb : H5pyDataSet.h5py_to_binary env data st.saveArgs with
      | error e =>
        simp only [H5pyDataSet.save, hs, hb]
        exact ⟨rfl, rfl⟩
      | ok bytes =>
        simp only [H5pyDataSet.save, hs, hb]
        exact ⟨rfl, rfl⟩
  refine ⟨hload.1, hload.2, hsave.1, hsave.2, ?_, ?_, ?_⟩
  · intro p binary hp hb
    simp only [H5pyDataSet.load, hp, hb]
  · intro p hp
    cases hb : H5pyDataSet.h5py_to_binary env data st.saveArgs with
    | error e =>
      simp only [H5pyDataSet.save, hp, hb]
      exact ⟨by simp, by simp⟩
    | ok binary =>
      simp only [H5pyDataSet.save, hp, hb]
      exact ⟨by simp, by simp⟩
  · intro p binary hp hb
    simp only [H5pyDataSet.save, hp, hb]

/-- Witness: on a concrete dataset with a succeeding filesystem, the load
trace is exactly read-then-locked-open and the save trace is exactly
locked-copy-then-write, both around the shared lock. -/
theorem lock_discipline_load_save_witness :
    (H5pyDataSet.load
        ⟨fun _ => Except.ok (serialize []), fun _ => Except.ok true⟩
        ⟨Except.ok "in.h5", Except.ok "out.h5"⟩
        (H5pyDataSet.init ⟨"test.h5", none, none, none, none, none⟩)).2 =
      [Event.fsOpen "in.h5"
          (H5pyDataSet.init ⟨"test.h5", none, none, none, none, none⟩).fsOpenArgsLoad,
       Event.fsRead "in.h5", Event.lockAcquire h5pyLockId, Event.libOpenImage,
       Event.lockRelease h5pyLockId] ∧
    (H5pyDataSet.save [] ⟨Except.ok "in.h5", Except.ok "out.h5"⟩
        (H5pyDataSet.init ⟨"test.h5", none, none, none, none, none⟩) []).2 =
      [Event.lockAcquire h5pyLockId, Event.libCreateAndCopy,
       Event.lockRelease h5pyLockId,
       Event.fsOpen "out.h5"
          (H5pyDataSet.init ⟨"test.h5", none, none, none, none, none⟩).fsOpenArgsSave,
       Event.fsWrite "out.h5",
       Event.cacheInvalidate
          (H5pyDataSet.init ⟨"test.h5", none, none, none, none, none⟩).filepath] :=
  ⟨(lock_discipline_load_save
      ⟨fun _ => Except.ok (serialize []), fun _ => Except.ok true⟩
      ⟨Except.ok "in.h5", Except.ok "out.h5"⟩
      (H5pyDataSet.init ⟨"test.h5", none, none, none, none, none⟩)
      [] []).2.2.2.2.1 "in.h5" (serialize []) rfl rfl,
   (lock_discipline_load_save
      ⟨fun _ => Except.ok (serialize []), fun _ => Except.ok true⟩
      ⟨Except.ok "in.h5", Except.ok "out.h5"⟩
      (H5pyDataSet.init ⟨"test.h5", none, none, none, none, none⟩)
      [] []).2.2.2.2.2.2 "out.h5" (serialize []) rfl rfl⟩

/-! ## Serializer round-trip lemmas -/

theorem char_ofNat_toNat (c : Char) : Char.ofNat c.toNat = c := by
  have h : c.toNat.isValidChar := c.valid
  apply Char.eq_of_val_eq
  simp only [Char.ofNat, h, dite_true]
  apply UInt32.eq_of_val_eq
  apply Fin.ext
  simp [Char.ofNatAux, Char.toNat, UInt32.toNat]

theorem char_toNat_ofNat (n : Nat) (h : n.isValidChar) :
    (Char.ofNat n).toNat = n := by
  simp only [Char.ofNat, h, dite_true]
  simp [Char.ofNatAux, Char.toNat, UInt32.toNat]

theorem parseString_enc (s : String) (r : List Nat) :
    parseString (encString s ++ r) = some (s, r) := by
  cases s with
  | mk data =>
    have hvalid : ((data.map Char.toNat ++ r).take (data.map Char.toNat).length).all
        (fun n => decide n.isValidChar) = true := by
      rw [List.take_left]
      rw [List.all_eq_true]
      intro x hx
      rw [List.mem_map] at hx
      obtain ⟨c, _, rfl⟩ := hx
      exact decide_eq_true c.valid
    simp only [parseString, encString, List.cons_append]
    rw [if_pos]
    · simp [char_ofNat_toNat, Function.comp_def, List.take_left, List.drop_left]
    · rw [Bool.and_eq_true]
      refine ⟨by simp, by simpa using hvalid⟩

theorem parseString_sound (input : List Nat) (s : String) (r : List Nat)
    (h : parseString input = some (s, r)) : input = encString s ++ r := by
  cases input with
  | nil => cases h
  | cons len rest =>
    simp only [parseString] at h
    by_cases hc : (decide (len ≤ rest.length) &&
        (rest.take len).all fun n => decide n.isValidChar) = true
    · rw [if_pos hc] at h
      rw [Bool.and_eq_true] at hc
      obtain ⟨hle', hall⟩ := hc
      have hle : len ≤ rest.length := of_decide_eq_true hle'
      rw [Option.some.injEq, Prod.mk.injEq] at h
      obtain ⟨hs, hr⟩ := h
      subst hs
      subst hr
      have hlen : ((rest.take len).map Char.ofNat).length = len := by
        simp [List.length_take, Nat.min_eq_left hle]
      have hback : (((rest.take len).map Char.ofNat).map Char.toNat) =
          rest.take len := by
        rw [List.map_map]
        have hcongr : ∀ x ∈ rest.take len, (Char.toNat ∘ Char.ofNat) x = x := by
          intro x hx
          have hv := (List.all_eq_true.mp hall) x hx
          exact char_toNat_ofNat x (of_decide_eq_true hv)
        calc ((rest.take len).map (Char.toNat ∘ Char.ofNat))
            = (rest.take len).map id := List.map_congr_left hcongr
          _ = rest.take len := List.map_id _
      simp only [encString, hlen, hback]
      rw [List.cons_append, List.take_append_drop]
    · rw [if_neg hc] at h
      cases h

theorem parseStrings_enc (p : List String) (r : List Nat) :
    parseStrings p.length ((p.map encString).flatten ++ r) = some (p, r) := by
  induction p generalizing r with
  | nil => simp [parseStrings]
  | cons s p ih =>
    simp only [List.length_cons, List.map_cons, List.flatten_cons,
      List.append_assoc, parseStrings]
    rw [parseString_enc s ((p.map encString).flatten ++ r)]
    simp only [ih]

theorem parseStrings_sound (cnt : Nat) (input : List Nat) (ss : List String)
    (r : List Nat) (h : parseStrings cnt input = some (ss, r)) :
    input = (ss.map encString).flatten ++ r ∧ cnt = ss.length := by
  induction cnt generalizing input ss with
  | zero =>
    unfold parseStrings at h
    rw [Option.some.injEq, Prod.mk.injEq] at h
    obtain ⟨hs, hr⟩ := h
    subst hs; subst hr
    simp
  | succ cnt ih =>
    unfold parseStrings at h
    cases hps : parseString input with
    | none => rw [hps] at h; cases h
    | some sr =>
      rw [hps] at h
      cases sr with
      | mk s r1 =>
        cases hrec : parseStrings cnt r1 with
        | none => simp only [hrec] at h; cases h
        | some ssr =>
          simp only [hrec] at h
          cases ssr with
          | mk ss2 r2 =>
            rw [Option.some.injEq, Prod.mk.injEq] at h
            obtain ⟨hs, hr⟩ := h
            subst hs
            subst hr
            obtain ⟨h1, h2⟩ := ih r1 ss2 hrec
            subst h1
            refine ⟨?_, by simp [h2]⟩
            rw [parseString_sound input s _ hps]
            simp

theorem parsePath_enc (p : List String) (r : List Nat) :
    parsePath (encPath p ++ r) = some (p, r) := by
  simp only [parsePath, encPath, List.cons_append]
  exact parseStrings_enc p r

theorem parsePath_sound (input : List Nat) (p : List String) (r : List Nat)
    (h : parsePath input = some (p, r)) : input = encPath p ++ r := by
  cases input with
  | nil => cases h
  | cons cnt rest =>
    simp only [parsePath] at h
    obtain ⟨h1, h2⟩ := parseStrings_sound cnt rest p r h
    subst h1
    simp [encPath, h2]

theorem encEntry_length_pos (e : H5Entry) : 1 ≤ (encEntry e).length := by
  cases e <;> simp [encEntry]

theorem encEntry_length_le_encChildren (cs : List (String × H5Entry)) :
    ∀ q ∈ cs, (encEntry q.2).length ≤ (encChildren cs).length := by
  induction cs with
  | nil => intro q hq; cases hq
  | cons c cs ih =>
    intro q hq
    cases c with
    | mk n e =>
      rw [List.mem_cons] at hq
      rcases hq with rfl | hq
      · simp only [encChildren, List.length_append]
        omega
      · have hle := ih q hq
        simp only [encChildren, List.length_append]
        omega

theorem parseCount_enc (pe : List Nat → Option (H5Entry × List Nat)) :
    ∀ (cs : List (String × H5Entry)) (r : List Nat),
      (∀ q ∈ cs, ∀ r', pe (encEntry q.2 ++ r') = some (q.2, r')) →
      parseCount pe cs.length (encChildren cs ++ r) = some (cs, r) := by
  intro cs
  induction cs with
  | nil =>
    intro r _
    simp [parseCount, encChildren]
  | cons c cs ih =>
    intro r hpe
    cases c with
    | mk n e =>
      simp only [encChildren, List.length_cons, List.append_assoc, parseCount]
      rw [parseString_enc n (encEntry e ++ (encChildren cs ++ r))]
      have hhead : ∀ r', pe (encEntry e ++ r') = some (e, r') :=
        fun r' => hpe (n, e) (List.mem_cons_self _ _) r'
      have htail : parseCount pe cs.length (encChildren cs ++ r) = some (cs, r) :=
        ih r (fun q hq r' => hpe q (List.mem_cons_of_mem _ hq) r')
      simp only [hhead, htail]

theorem parseCount_sound (pe : List Nat → Option (H5Entry × List Nat))
    (hpe : ∀ inp e r, pe inp = some (e, r) → inp = encEntry e ++ r) :
    ∀ (cnt : Nat) (inp : List Nat) (cs : List (String × H5Entry)) (r : List Nat),
      parseCount pe cnt inp = some (cs, r) →
      inp = encChildren cs ++ r ∧ cnt = cs.length := by
  intro cnt
  induction cnt with
  | zero =>
    intro inp cs r h
    simp only [parseCount, Option.some.injEq, Prod.mk.injEq] at h
    obtain ⟨h1, h2⟩ := h
    subst h1
    subst h2
    simp [encChildren]
  | succ cnt ih =>
    intro inp cs r h
    simp only [parseCount] at h
    cases hps : parseString inp with
    | none => rw [hps] at h; cases h
    | some sr =>
      rw [hps] at h
      cases sr with
      | mk n r1 =>
        cases hpe1 : pe r1 with
        | none => simp only [hpe1] at h; cases h
        | some er =>
          simp only [hpe1] at h
          cases er with
          | mk e r2 =>
            cases hrec : parseCount pe cnt r2 with
            | none => simp only [hrec] at h; cases h
            | some csr =>
              simp only [hrec] at h
              cases csr with
              | mk cs2 r3 =>
                rw [Option.some.injEq, Prod.mk.injEq] at h
                obtain ⟨hcs, hr⟩ := h
                subst hcs
                subst hr
                obtain ⟨hh1, hh2⟩ := ih r2 cs2 r3 hrec
                subst hh1
                have hinp := parseString_sound inp n r1 hps
                have hr1 := hpe r1 e _ hpe1
                subst hinp
                subst hr1
                refine ⟨by simp [encChildren], by simp [hh2]⟩

theorem parseEntry_enc :
    ∀ (fuel : Nat) (e : H5Entry) (r : List Nat),
      (encEntry e).length ≤ fuel →
      parseEntry fuel (encEntry e ++ r) = some (e, r) := by
  intro fuel
  induction fuel with
  | zero =>
    intro e r hle
    have := encEntry_length_pos e
    omega
  | succ fuel ih =>
    intro e r hle
    cases e with
    | dataset d =>
      simp only [encEntry, List.cons_append, parseEntry]
      rw [if_pos (by simp)]
      simp [List.take_left, List.drop_left]
    | group cs =>
      simp only [encEntry, List.cons_append, parseEntry]
      have hpc : parseCount (parseEntry fuel) cs.length (encChildren cs ++ r) =
          some (cs, r) := by
        apply parseCount_enc
        intro q hq r'
        apply ih
        have h1 := encEntry_length_le_encChildren cs q hq
        simp only [encEntry, List.length_cons] at hle
        omega
      simp only [hpc]
    | softLink p =>
      simp only [encEntry, List.cons_append, parseEntry, parsePath_enc]
    | objectRef p =>
      simp only [encEntry, List.cons_append, parseEntry, parsePath_enc]
    | externalLink fn p =>
      simp only [encEntry, List.cons_append, List.append_assoc, parseEntry]
      rw [parseString_enc fn (encPath p ++ r)]
      simp only [parsePath_enc]

theorem parseEntry_sound :
    ∀ (fuel : Nat) (inp : List Nat) (e : H5Entry) (r : List Nat),
      parseEntry fuel inp = some (e, r) → inp = encEntry e ++ r := by
  intro fuel
  induction fuel with
  | zero => intro inp e r h; cases h
  | succ fuel ih =>
    intro inp e r h
    simp only [parseEntry] at h
    split at h
    · rename_i len rest
      split at h
      · rename_i hle
        rw [Option.some.injEq, Prod.mk.injEq] at h
        obtain ⟨he, hr⟩ := h
        subst he
        subst hr
        have hlen : (rest.take len).length = len := by
          simp [List.length_take, Nat.min_eq_left hle]
        simp only [encEntry, hlen]
        rw [List.cons_append, List.cons_append, List.take_append_drop]
      · cases h
    · rename_i cnt rest
      cases hpc : parseCount (parseEntry fuel) cnt rest with
      | none => simp only [hpc] at h; cases h
      | some csr =>
        simp only [hpc] at h
        cases csr with
        | mk cs r2 =>
          rw [Option.some.injEq, Prod.mk.injEq] at h
          obtain ⟨he, hr⟩ := h
          subst he
          subst hr
          obtain ⟨h1, h2⟩ := parseCount_sound (parseEntry fuel) ih cnt rest cs r2 hpc
          subst h1
          simp [encEntry, h2]
    · rename_i rest
      cases hp : parsePath rest with
      | none => simp only [hp] at h; cases h
      | some pr =>
        simp only [hp] at h
        cases pr with
        | mk p r2 =>
          rw [Option.some.injEq, Prod.mk.injEq] at h
          obtain ⟨he, hr⟩ := h
          subst he
          subst hr
          have hrest := parsePath_sound rest p r2 hp
          subst hrest
          simp [encEntry]
    · rename_i rest
      cases hfs : parseString rest with
      | none => simp only [hfs] at h; cases h
      | some fr =>
        simp only [hfs] at h
        cases fr with
        | mk fn r1 =>
          cases hp : parsePath r1 with
          | none => simp only [hp] at h; cases h
          | some pr =>
            simp only [hp] at h
            cases pr with
            | mk p r2 =>
              rw [Option.some.injEq, Prod.mk.injEq] at h
              obtain ⟨he, hr⟩ := h
              subst he
              subst hr
              have hrest := parseString_sound rest fn r1 hfs
              have hr1 := parsePath_sound r1 p r2 hp
              subst hrest
              subst hr1
              simp [encEntry]
    · rename_i rest
      cases hp : parsePath rest with
      | none => simp only [hp] at h; cases h
      | some pr =>
        simp only [hp] at h
        cases pr with
        | mk p r2 =>
          rw [Option.some.injEq, Prod.mk.injEq] at h
          obtain ⟨he, hr⟩ := h
          subst he
          subst hr
          have hrest := parsePath_sound rest p r2 hp
          subst hrest
          simp [encEntry]
    · cases h

theorem serialize_length (f : H5File) :
    (serialize f).length = (encChildren f).length + 6 := by
  simp [serialize, magicHeader]

theorem deserialize_serialize (f : H5File) : deserialize (serialize f) = some f := by
  have hpc : parseCount (parseEntry ((encChildren f).length + 1)) f.length
      (encChildren f ++ []) = some (f, []) := by
    apply parseCount_enc
    intro q hq r'
    exact parseEntry_enc _ q.2 r'
      (le_trans (encEntry_length_le_encChildren f q hq) (Nat.le_succ _))
  rw [List.append_nil] at hpc
  simp only [serialize, magicHeader, List.cons_append, List.nil_append, deserialize]
  rw [if_pos (by simp)]
  simp only [hpc]
  simp

theorem deserialize_sound (b : List Nat) (f : H5File)
    (h : deserialize b = some f) : b = serialize f := by
  unfold deserialize at h
  split at h
  · rename_i plen rest
    split at h
    · rename_i hplen
      cases rest with
      | nil => cases h
      | cons cnt rest2 =>
        cases hpc : parseCount (parseEntry (rest2.length + 1)) cnt rest2 with
        | none => simp only [hpc] at h; cases h
        | some csr =>
          simp only [hpc] at h
          cases csr with
          | mk cs leftover =>
            cases leftover with
            | cons x xs => simp only [] at h; cases h
            | nil =>
              simp only [] at h
              split at h
              · rename_i hcnt
                rw [Option.some.injEq] at h
                subst h
                obtain ⟨h1, h2⟩ := parseCount_sound (parseEntry (rest2.length + 1))
                  (parseEntry_sound (rest2.length + 1)) cnt rest2 cs [] hpc
                rw [List.append_nil] at h1
                subst h1
                simp only [serialize, magicHeader, List.cons_append, List.nil_append]
                simp only [List.length_cons] at hplen
                rw [hplen, hcnt]
              · cases h
    · cases h
  · cases h

theorem deserialize_truncated (f : H5File) (k : Nat)
    (hk : k < (serialize f).length) :
    deserialize ((serialize f).take k) = none := by
  have hser : serialize f =
      137 :: 72 :: 68 :: 70 :: ((encChildren f).length + 1) ::
        (f.length :: encChildren f) := by
    simp [serialize, magicHeader]
  rcases k with _|_|_|_|_|j
  · rw [hser]; rfl
  · rw [hser]; rfl
  · rw [hser]; rfl
  · rw [hser]; rfl
  · rw [hser]; rfl
  · have hkj : j < (encChildren f).length + 1 := by
      rw [serialize_length] at hk
      omega
    rw [hser]
    simp only [List.take_succ_cons, deserialize]
    rw [if_neg]
    intro hcon
    rw [List.length_take] at hcon
    have : ((f.length :: encChildren f) : List Nat).length =
        (encChildren f).length + 1 := by simp
    rw [this] at hcon
    omega

/-! ## Lemmas about the link-expanding copy -/

theorem optMapSnd_congr (f g : H5Entry → Option H5Entry)
    (hfg : ∀ e v, f e = some v → g e = some v) :
    ∀ (cs vs : List (String × H5Entry)),
      optMapSnd f cs = some vs → optMapSnd g cs = some vs := by
  intro cs
  induction cs with
  | nil => intro vs h; simpa [optMapSnd] using h
  | cons c cs ih =>
    intro vs h
    cases c with
    | mk n e =>
      simp only [optMapSnd] at h ⊢
      cases hf : f e with
      | none => rw [hf] at h; cases h
      | some v =>
        rw [hf] at h
        cases hrest : optMapSnd f cs with
        | none => simp only [hrest] at h; cases h
        | some vs2 =>
          simp only [hrest] at h
          rw [hfg e v hf, ih vs2 hrest]
          exact h

theorem optMapSnd_fst (f : H5Entry → Option H5Entry) :
    ∀ (cs vs : List (String × H5Entry)),
      optMapSnd f cs = some vs → vs.map Prod.fst = cs.map Prod.fst := by
  intro cs
  induction cs with
  | nil =>
    intro vs h
    simp only [optMapSnd, Option.some.injEq] at h
    subst h
    rfl
  | cons c cs ih =>
    intro vs h
    cases c with
    | mk n e =>
      simp only [optMapSnd] at h
      cases hf : f e with
      | none => rw [hf] at h; cases h
      | some v =>
        rw [hf] at h
        cases hrest : optMapSnd f cs with
        | none => simp only [hrest] at h; cases h
        | some vs2 =>
          simp only [hrest, Option.some.injEq] at h
          subst h
          simp [ih vs2 hrest]

theorem optMapSnd_alookup (f : H5Entry → Option H5Entry) :
    ∀ (cs vs : List (String × H5Entry)),
      optMapSnd f cs = some vs →
      ∀ n, alookup vs n =
        match alookup cs n with
        | some e => f e
        | none => none := by
  intro cs
  induction cs with
  | nil =>
    intro vs h n
    simp only [optMapSnd, Option.some.injEq] at h
    subst h
    simp [alookup]
  | cons c cs ih =>
    intro vs h n
    cases c with
    | mk m e =>
      simp only [optMapSnd] at h
      cases hf : f e with
      | none => rw [hf] at h; cases h
      | some v =>
        rw [hf] at h
        cases hrest : optMapSnd f cs with
        | none => simp only [hrest] at h; cases h
        | some vs2 =>
          simp only [hrest, Option.some.injEq] at h
          subst h
          by_cases hmn : m = n
          · simp [alookup, hmn, hf]
          · simp [alookup, hmn, ih vs2 hrest n]

theorem optMapSnd_mem_some (f : H5Entry → Option H5Entry) :
    ∀ (cs vs : List (String × H5Entry)),
      optMapSnd f cs = some vs → ∀ q ∈ cs, ∃ w, f q.2 = some w := by
  intro cs
  induction cs with
  | nil => intro vs _ q hq; cases hq
  | cons c cs ih =>
    intro vs h q hq
    cases c with
    | mk m e =>
      simp only [optMapSnd] at h
      cases hf : f e with
      | none => rw [hf] at h; cases h
      | some v =>
        rw [hf] at h
        cases hrest : optMapSnd f cs with
        | none => simp only [hrest] at h; cases h
        | some vs2 =>
          rw [List.mem_cons] at hq
          rcases hq with rfl | hq
          · exact ⟨v, hf⟩
          · exact ih vs2 hrest q hq

theorem alookup_mem {α : Type} :
    ∀ (cs : List (String × α)) (n : String) (v : α),
      alookup cs n = some v → (n, v) ∈ cs := by
  intro cs
  induction cs with
  | nil => intro n v h; cases h
  | cons c cs ih =>
    intro n v h
    cases c with
    | mk m w =>
      simp only [alookup] at h
      by_cases hmn : m = n
      · subst hmn
        rw [if_pos rfl, Option.some.injEq] at h
        subst h
        exact List.mem_cons_self _ _
      · rw [if_neg hmn] at h
        exact List.mem_cons_of_mem _ (ih n v h)

theorem linkFreeChildren_mem :
    ∀ (cs : List (String × H5Entry)), linkFreeChildren cs = true →
      ∀ q ∈ cs, linkFree q.2 = true := by
  intro cs
  induction cs with
  | nil => intro _ q hq; cases hq
  | cons c cs ih =>
    intro h q hq
    cases c with
    | mk m e =>
      simp only [linkFreeChildren, Bool.and_eq_true] at h
      rw [List.mem_cons] at hq
      rcases hq with rfl | hq
      · exact h.1
      · exact ih h.2 q hq

theorem optMapSnd_linkFree (f : H5Entry → Option H5Entry)
    (hf : ∀ e v, f e = some v → linkFree v = true) :
    ∀ (cs vs : List (String × H5Entry)),
      optMapSnd f cs = some vs → linkFreeChildren vs = true := by
  intro cs
  induction cs with
  | nil =>
    intro vs h
    simp only [optMapSnd, Option.some.injEq] at h
    subst h
    rfl
  | cons c cs ih =>
    intro vs h
    cases c with
    | mk m e =>
      simp only [optMapSnd] at h
      cases hfe : f e with
      | none => rw [hfe] at h; cases h
      | some v =>
        rw [hfe] at h
        cases hrest : optMapSnd f cs with
        | none => simp only [hrest] at h; cases h
        | some vs2 =>
          simp only [hrest, Option.some.injEq] at h
          subst h
          simp only [linkFreeChildren, Bool.and_eq_true]
          exact ⟨hf e v hfe, ih vs2 hrest⟩

theorem optMapSnd_id (f : H5Entry → Option H5Entry) :
    ∀ (cs : List (String × H5Entry)), (∀ q ∈ cs, f q.2 = some q.2) →
      optMapSnd f cs = some cs := by
  intro cs
  induction cs with
  | nil => intro _; rfl
  | cons c cs ih =>
    intro hall
    cases c with
    | mk m e =>
      simp only [optMapSnd]
      rw [hall (m, e) (List.mem_cons_self _ _)]
      rw [ih (fun q hq => hall q (List.mem_cons_of_mem _ hq))]

theorem expandEntry_mono (env : List (String × H5File)) :
    ∀ (fuel : Nat) (root : H5File) (e v : H5Entry),
      expandEntry env fuel root e = some v →
      expandEntry env (fuel + 1) root e = some v := by
  intro fuel
  induction fuel with
  | zero => intro root e v h; cases h
  | succ fuel ih =>
    intro root e v h
    cases e with
    | dataset d => exact h
    | group cs =>
      simp only [expandEntry] at h ⊢
      cases hm : optMapSnd (expandEntry env fuel root) cs with
      | none => rw [hm] at h; cases h
      | some vs =>
        rw [hm] at h
        rw [optMapSnd_congr (expandEntry env fuel root)
          (expandEntry env (fuel + 1) root) (fun e v => ih root e v) cs vs hm]
        exact h
    | softLink p =>
      simp only [expandEntry] at h ⊢
      cases hl : lookupPath root p with
      | none => rw [hl] at h; cases h
      | some t => rw [hl] at h; exact ih root t v h
    | objectRef p =>
      simp only [expandEntry] at h ⊢
      cases hl : lookupPath root p with
      | none => rw [hl] at h; cases h
      | some t => rw [hl] at h; exact ih root t v h
    | externalLink fn p =>
      simp only [expandEntry] at h
      cases he : alookup env fn with
      | none => simp only [he] at h; cases h
      | some ef =>
        simp only [he] at h
        cases hl : lookupPath ef p with
        | none => simp only [hl] at h; cases h
        | some t =>
          simp only [hl] at h
          simp only [expandEntry, he, hl]
          exact ih ef t v h

theorem expandEntry_mono_le (env : List (String × H5File)) (fuel fuel' : Nat)
    (hle : fuel ≤ fuel') :
    ∀ (root : H5File) (e v : H5Entry),
      expandEntry env fuel root e = some v →
      expandEntry env fuel' root e = some v := by
  induction fuel' with
  | zero =>
    intro root e v h
    have hz : fuel = 0 := Nat.le_zero.mp hle
    subst hz
    cases h
  | succ n ihn =>
    intro root e v h
    by_cases heq : fuel = n + 1
    · subst heq
      exact h
    · have hle2 : fuel ≤ n := by omega
      exact expandEntry_mono env n root e v (ihn hle2 root e v h)

theorem expandEntry_det (env : List (String × H5File)) (f1 f2 : Nat)
    (root : H5File) (e v1 v2 : H5Entry)
    (h1 : expandEntry env f1 root e = some v1)
    (h2 : expandEntry env f2 root e = some v2) : v1 = v2 := by
  have g1 := expandEntry_mono_le env f1 (max f1 f2) (le_max_left _ _) root e v1 h1
  have g2 := expandEntry_mono_le env f2 (max f1 f2) (le_max_right _ _) root e v2 h2
  rw [g1, Option.some.injEq] at g2
  exact g2

theorem expandEntry_linkFree (env : List (String × H5File)) :
    ∀ (fuel : Nat) (root : H5File) (e v : H5Entry),
      expandEntry env fuel root e = some v → linkFree v = true := by
  intro fuel
  induction fuel with
  | zero => intro root e v h; cases h
  | succ fuel ih =>
    intro root e v h
    cases e with
    | dataset d =>
      simp only [expandEntry, Option.some.injEq] at h
      subst h
      rfl
    | group cs =>
      simp only [expandEntry] at h
      cases hm : optMapSnd (expandEntry env fuel root) cs with
      | none => rw [hm] at h; cases h
      | some vs =>
        rw [hm] at h
        rw [Option.some.injEq] at h
        subst h
        exact optMapSnd_linkFree _ (fun e v hv => ih root e v hv) cs vs hm
    | softLink p =>
      simp only [expandEntry] at h
      cases hl : lookupPath root p with
      | none => rw [hl] at h; cases h
      | some t => rw [hl] at h; exact ih root t v h
    | objectRef p =>
      simp only [expandEntry] at h
      cases hl : lookupPath root p with
      | none => rw [hl] at h; cases h
      | some t => rw [hl] at h; exact ih root t v h
    | externalLink fn p =>
      simp only [expandEntry] at h
      cases he : alookup env fn with
      | none => simp only [he] at h; cases h
      | some ef =>
        simp only [he] at h
        cases hl : lookupPath ef p with
        | none => simp only [hl] at h; cases h
        | some t =>
          simp only [hl] at h
          exact ih ef t v h

theorem expandEntry_of_linkFree (env : List (String × H5File)) :
    ∀ (fuel : Nat) (root : H5File) (e : H5Entry),
      linkFree e = true → (encEntry e).length ≤ fuel →
      expandEntry env fuel root e = some e := by
  intro fuel
  induction fuel with
  | zero =>
    intro root e _ hle
    have := encEntry_length_pos e
    omega
  | succ fuel ih =>
    intro root e hfree hle
    cases e with
    | dataset d => rfl
    | group cs =>
      simp only [expandEntry]
      have hm : optMapSnd (expandEntry env fuel root) cs = some cs := by
        apply optMapSnd_id
        intro q hq
        apply ih
        · exact linkFreeChildren_mem cs (by simpa [linkFree] using hfree) q hq
        · have h1 := encEntry_length_le_encChildren cs q hq
          simp only [encEntry, List.length_cons] at hle
          omega
      rw [hm]
    | softLink p => simp [linkFree] at hfree
    | objectRef p => simp [linkFree] at hfree
    | externalLink fn p => simp [linkFree] at hfree

/-! ## Claim C4: decode rejects malformed buffers -/

/-- C4: decode fails with the decode error on every buffer the container
format rejects; a successful decode means the buffer was a complete
well-formed serialization of exactly the returned handle (no partial
handle); and every proper truncation of a valid buffer is rejected. -/
theorem decode_rejects_malformed :
    (∀ (b : List Nat) (la : List (String × String)), deserialize b = none →
      H5pyDataSet.h5py_from_binary b la = Except.error DsError.decodeError) ∧
    (∀ (b : List Nat) (la : List (String × String)) (h : H5File),
      H5pyDataSet.h5py_from_binary b la = Except.ok h →
      deserialize b = some h ∧ b = serialize h) ∧
    (∀ (f : H5File) (k : Nat), k < (serialize f).length →
      deserialize ((serialize f).take k) = none) := by
  refine ⟨?_, ?_, ?_⟩
  · intro b la hnone
    simp [H5pyDataSet.h5py_from_binary, hnone]
  · intro b la h hok
    unfold H5pyDataSet.h5py_from_binary at hok
    cases hd : deserialize b with
    | none => rw [hd] at hok; cases hok
    | some f =>
      rw [hd] at hok
      rw [Except.ok.injEq] at hok
      subst hok
      exact ⟨rfl, deserialize_sound b f hd⟩
  · intro f k hk
    exact deserialize_truncated f k hk

/-- Witness: garbage bytes are rejected; a valid buffer decodes to its
exact content; a truncation of a valid buffer is rejected. -/
theorem decode_rejects_malformed_witness :
    H5pyDataSet.h5py_from_binary [1, 2, 3] [] =
      Except.error DsError.decodeError ∧
    (deserialize (serialize [("a", H5Entry.dataset [1])]) =
        some [("a", H5Entry.dataset [1])] ∧
      serialize [("a", H5Entry.dataset [1])] =
        serialize [("a", H5Entry.dataset [1])]) ∧
    deserialize ((serialize ([] : H5File)).take 3) = none :=
  ⟨decode_rejects_malformed.1 [1, 2, 3] [] rfl,
   decode_rejects_malformed.2.1 (serialize [("a", H5Entry.dataset [1])]) []
     [("a", H5Entry.dataset [1])] (by rfl),
   decode_rejects_malformed.2.2 [] 3 (by decide)⟩

/-! ## Claim C6: encode copies all entries expanded, self-contained -/

/-- C6: a successful encode produces a byte buffer that decodes to a fresh
container holding exactly the handle's top-level names, each mapped to the
link-expanded copy of the handle's entry (soft links, external links and
object references resolved), and that output container holds no link or
reference of any kind. -/
theorem encode_copies_and_expands :
    ∀ (env : List (String × H5File)) (h5f : H5File)
      (sa : List (String × String)) (b : List Nat),
      H5pyDataSet.h5py_to_binary env h5f sa = Except.ok b →
      ∃ out, deserialize b = some out ∧
        out.map Prod.fst = h5f.map Prod.fst ∧
        (∀ n e, alookup h5f n = some e →
          ∃ v, expandEntry env (copyFuel env h5f) h5f e = some v ∧
            alookup out n = some v) ∧
        linkFreeChildren out = true := by
  intro env h5f sa b hok
  unfold H5pyDataSet.h5py_to_binary at hok
  cases hm : optMapSnd (expandEntry env (copyFuel env h5f) h5f) h5f with
  | none => rw [hm] at hok; cases hok
  | some out =>
    rw [hm] at hok
    rw [Except.ok.injEq] at hok
    subst hok
    refine ⟨out, deserialize_serialize out, optMapSnd_fst _ h5f out hm, ?_, ?_⟩
    · intro n e hlk
      have hal := optMapSnd_alookup _ h5f out hm n
      simp only [hlk] at hal
      cases hv : expandEntry env (copyFuel env h5f) h5f e with
      | none =>
        exfalso
        obtain ⟨w, hw⟩ := optMapSnd_mem_some _ h5f out hm (n, e)
          (alookup_mem h5f n e hlk)
        rw [hv] at hw
        cases hw
      | some v =>
        refine ⟨v, rfl, ?_⟩
        rw [hal, hv]
    · exact optMapSnd_linkFree _
        (fun e v hv => expandEntry_linkFree env _ h5f e v hv) h5f out hm

/-- Witness: a handle whose single entry is an external link is encoded to
a self-contained buffer holding the referenced dataset. -/
theorem encode_copies_and_expands_witness :
    ∃ out,
      deserialize (serialize [("e", H5Entry.dataset [9])]) = some out ∧
      out.map Prod.fst =
        ([("e", H5Entry.externalLink "ext.h5" ["d"])] : H5File).map Prod.fst ∧
      (∀ n e, alookup [("e", H5Entry.externalLink "ext.h5" ["d"])] n = some e →
        ∃ v, expandEntry [("ext.h5", [("d", H5Entry.dataset [9])])]
            (copyFuel [("ext.h5", [("d", H5Entry.dataset [9])])]
              [("e", H5Entry.externalLink "ext.h5" ["d"])])
            [("e", H5Entry.externalLink "ext.h5" ["d"])] e = some v ∧
          alookup out n = some v) ∧
      linkFreeChildren out = true :=
  encode_copies_and_expands [("ext.h5", [("d", H5Entry.dataset [9])])]
    [("e", H5Entry.externalLink "ext.h5" ["d"])] []
    (serialize [("e", H5Entry.dataset [9])]) (by rfl)

/-! ## Claim C1: decode after encode preserves entries and contents -/

/-- C1: for a handle obtained from decode, encoding it and decoding the
result yields a handle with identical top-level names whose entries have
exactly the same raw (link-expanded) contents; byte identity of the two
serializations is not asserted. -/
theorem h5py_roundtrip_preserves_entries :
    ∀ (env : List (String × H5File)) (b0 b : List Nat)
      (la la2 sa : List (String × String)) (h : H5File),
      H5pyDataSet.h5py_from_binary b0 la = Except.ok h →
      H5pyDataSet.h5py_to_binary env h sa = Except.ok b →
      ∃ h', H5pyDataSet.h5py_from_binary b la2 = Except.ok h' ∧
        h'.map Prod.fst = h.map Prod.fst ∧
        ∀ n v, hasRawContent env h n v ↔ hasRawContent env h' n v := by
  intro env b0 b la la2 sa h hdec henc
  unfold H5pyDataSet.h5py_to_binary at henc
  cases hm : optMapSnd (expandEntry env (copyFuel env h) h) h with
  | none => rw [hm] at henc; cases henc
  | some out =>
    rw [hm] at henc
    rw [Except.ok.injEq] at henc
    subst henc
    refine ⟨out, ?_, optMapSnd_fst _ h out hm, ?_⟩
    · unfold H5pyDataSet.h5py_from_binary
      rw [deserialize_serialize out]
    · intro n v
      constructor
      · rintro ⟨fuel, e, hlk, hex⟩
        obtain ⟨w, hw⟩ := optMapSnd_mem_some _ h out hm (n, e)
          (alookup_mem h n e hlk)
        have hv : v = w := expandEntry_det env fuel (copyFuel env h) h e v w hex hw
        subst hv
        have hout : alookup out n = some v := by
          have hal := optMapSnd_alookup _ h out hm n
          simp only [hlk] at hal
          rw [hal, hw]
        refine ⟨(encEntry v).length, v, hout, ?_⟩
        exact expandEntry_of_linkFree env _ out v
          (expandEntry_linkFree env _ h e v hw) (le_refl _)
      · rintro ⟨fuel, e', hlk', hex'⟩
        have hal := optMapSnd_alookup _ h out hm n
        cases hlk : alookup h n with
        | none =>
          simp only [hlk] at hal
          rw [hal] at hlk'
          cases hlk'
        | some e =>
          simp only [hlk] at hal
          rw [hlk'] at hal
          have hexp : expandEntry env (copyFuel env h) h e = some e' := hal.symm
          have hfree : linkFree e' = true := expandEntry_linkFree env _ h e e' hexp
          have hself : expandEntry env (encEntry e').length out e' = some e' :=
            expandEntry_of_linkFree env _ out e' hfree (le_refl _)
          have hv : v = e' :=
            expandEntry_det env fuel ((encEntry e').length) out e' v e' hex' hself
          subst hv
          exact ⟨copyFuel env h, e, hlk, hexp⟩

/-- Witness: a decoded handle holding a dataset and a soft link to it
round-trips to a handle with the same names and raw contents. -/
theorem h5py_roundtrip_preserves_entries_witness :
    ∃ h', H5pyDataSet.h5py_from_binary
        (serialize [("a", H5Entry.dataset [1]), ("l", H5Entry.dataset [1])])
        [] = Except.ok h' ∧
      h'.map Prod.fst =
        ([("a", H5Entry.dataset [1]), ("l", H5Entry.softLink ["a"])] : H5File).map
          Prod.fst ∧
      ∀ n v, hasRawContent []
          [("a", H5Entry.dataset [1]), ("l", H5Entry.softLink ["a"])] n v ↔
        hasRawContent [] h' n v :=
  h5py_roundtrip_preserves_entries []
    (serialize [("a", H5Entry.dataset [1]), ("l", H5Entry.softLink ["a"])])
    (serialize [("a", H5Entry.dataset [1]), ("l", H5Entry.dataset [1])])
    [] [] []
    [("a", H5Entry.dataset [1]), ("l", H5Entry.softLink ["a"])]
    (by rfl) (by rfl)
